import Mathlib

/-!
Verification development for `src/sv/gen_pads.py`: a script that parses
Verilog-style port declaration lines and generates I/O pad instantiation
strings.  The Python code is embedded shallowly: strings are Lean `String`s,
Python `int` is Lean `Int`, the module-level mutable dict
`known_substitutions` and the interactive `input()` calls are threaded as an
explicit `PState` (cache plus trace of oracle invocations) and an `oracle`
function, and the uncaught `ValueError` from tuple unpacking is modelled with
`Except`.
-/

namespace GenPads

/-- Python `str.strip()` on a list of characters: drop whitespace from both
ends. -/
def pyStripList (l : List Char) : List Char :=
  ((l.dropWhile Char.isWhitespace).reverse.dropWhile Char.isWhitespace).reverse

/-- Python `str.strip()`. -/
def pyStrip (s : String) : String := ⟨pyStripList s.data⟩

/-- Helper for Python `str.split()` with no separator: accumulate the current
word (reversed) and cut at whitespace runs, dropping empty words. -/
def pySplitWsAux : List Char → List Char → List (List Char)
  | cur, [] => if cur = [] then [] else [cur.reverse]
  | cur, c :: rest =>
    if c.isWhitespace then
      if cur = [] then pySplitWsAux [] rest else cur.reverse :: pySplitWsAux [] rest
    else pySplitWsAux (c :: cur) rest

/-- Python `str.split()` with no separator: whitespace-delimited tokens,
empties discarded. -/
def pySplitWs (s : String) : List String := (pySplitWsAux [] s.data).map fun l => ⟨l⟩

/-- Helper for Python `str.split(sep)` with a one-character separator:
cut at every occurrence of `sep`, keeping empty fields. -/
def pySplitSepAux (sep : Char) : List Char → List Char → List (List Char)
  | cur, [] => [cur.reverse]
  | cur, c :: rest =>
    if c = sep then cur.reverse :: pySplitSepAux sep [] rest
    else pySplitSepAux sep (c :: cur) rest

/-- Python `s.split(':')`. -/
def pySplitColon (s : String) : List String := (pySplitSepAux ':' [] s.data).map fun l => ⟨l⟩

/-- Python slice `s[1:-1]`: drop the first and the last character. -/
def pySlice1m1 (s : String) : String := ⟨(s.data.drop 1).dropLast⟩

/-- Digit run of a Python decimal int literal after its first digit: digits
with single underscores allowed between digits (Python 3 `int("1_0") = 10`). -/
def pyDigitsAux : Nat → List Char → Option Nat
  | acc, [] => some acc
  | acc, '_' :: c :: rest =>
    if c.isDigit then pyDigitsAux (acc * 10 + (c.toNat - 48)) rest else none
  | acc, c :: rest =>
    if c.isDigit then pyDigitsAux (acc * 10 + (c.toNat - 48)) rest else none

/-- Nonempty digit run (the body of a Python decimal int literal). -/
def pyNatNum : List Char → Option Nat
  | [] => none
  | c :: rest => if c.isDigit then pyDigitsAux (c.toNat - 48) rest else none

/-- Python `int(s)`: optional surrounding whitespace, optional sign, decimal
digits.  Returns `none` where Python raises `ValueError`. -/
def pyInt (s : String) : Option Int :=
  match pyStripList s.data with
  | '+' :: rest => (pyNatNum rest).map Int.ofNat
  | '-' :: rest => (pyNatNum rest).map fun n => -(n : Int)
  | l => (pyNatNum l).map Int.ofNat

/-- Python substring containment `needle in hay`. -/
def strContains : List Char → List Char → Bool
  | [], needle => needle.isEmpty
  | c :: t, needle => needle.isPrefixOf (c :: t) || strContains t needle

/-- The fixed list of type keywords skipped by `parse_line` (line 25 of the
source). -/
def typeKeywords : List String :=
  ["reg", "wire", "integer", "real", "time", "realtime", "logic", "bit", "byte",
   "shortint", "int", "longint", "shortreal"]

/-- `any(typestr == token.strip() for typestr in [...])`. -/
def isTypeKeyword (t : String) : Bool := typeKeywords.any fun k => k == t

/-- The triple returned by `parse_line`: `(is_output, wire_count, bus_name)`.
Note the direction is a boolean, exactly as in the source. -/
structure PortDesc where
  is_output : Bool
  wire_count : Int
  name : String

/-- The only uncaught exception the modelled code can raise: the `ValueError`
from `n, m = token.strip()[1:-1].split(':')` when the split does not yield
exactly two parts (source line 31, outside the `try`). -/
inductive PyError
  | unpackError

/-- Process-wide mutable state: the `known_substitutions` dict (as an
association list in insertion order) plus the trace of tokens for which the
interactive `input()` oracle was invoked, in order. -/
structure PState where
  cache : List (String × Int)
  asked : List String

/-- Lookup in the `known_substitutions` association list (first match). -/
def lookupCache (cache : List (String × Int)) (k : String) : Option Int :=
  match cache with
  | [] => none
  | (k₁, v) :: rest => if k₁ = k then some v else lookupCache rest k

/-- One iteration of the token loop of `parse_line` (source lines 24-42).
`oracle` models `int(input(...))`, applied to the literal token text. -/
def processToken (oracle : String → Int) (st : PortDesc) (ps : PState) (token : String) :
    Except PyError (PortDesc × PState) :=
  if isTypeKeyword (pyStrip token) then
    .ok (st, ps)
  else if strContains token.data "output".data then
    .ok ({ st with is_output := true }, ps)
  else if strContains token.data "[".data then
    match pySplitColon (pySlice1m1 (pyStrip token)) with
    | [n, m] =>
      match pyInt n, pyInt m with
      | some ni, some mi => .ok ({ st with wire_count := ni + 1 - mi }, ps)
      | _, _ =>
        match lookupCache ps.cache token with
        | some w => .ok ({ st with wire_count := w }, ps)
        | none =>
          .ok ({ st with wire_count := oracle token },
               { cache := ps.cache ++ [(token, oracle token)],
                 asked := ps.asked ++ [token] })
    | _ => .error .unpackError
  else
    .ok ({ st with name := ⟨token.data.filter fun c => c.isAlphanum || c = '_'⟩ }, ps)

/-- The token loop of `parse_line`, folding `processToken` over the tokens. -/
def parseTokens (oracle : String → Int) (st : PortDesc) (ps : PState) :
    List String → Except PyError (PortDesc × PState)
  | [] => .ok (st, ps)
  | t :: rest =>
    match processToken oracle st ps t with
    | .error e => .error e
    | .ok (st₁, ps₁) => parseTokens oracle st₁ ps₁ rest

/-- The initial assumptions of `parse_line` (source lines 19-21). -/
def initDesc : PortDesc := ⟨false, 1, "none"⟩

/-- `parse_line(line)`: split on whitespace and fold the token loop starting
from the default descriptor `(False, 1, "none")`. -/
def parse_line (oracle : String → Int) (ps : PState) (line : String) :
    Except PyError (PortDesc × PState) :=
  parseTokens oracle initDesc ps (pySplitWs (pyStrip line))

/-- Python `f'{pin_num:03}'`: decimal, zero-padded to at least three digits. -/
def pad3 (n : Nat) : String :=
  if n < 10 then "00" ++ toString n
  else if n < 100 then "0" ++ toString n
  else toString n

/-- Python `"["+str(bus)+"]" if bus else ""`: the suffix is empty whenever
`bus` is (falsy, i.e.) zero. -/
def busSuffix (bus : Nat) : String :=
  if bus ≠ 0 then "[" ++ toString bus ++ "]" else ""

/-- `gen_input_pad(pin_num, wire_name, bus=0)`. -/
def gen_input_pad (pin_num : Nat) (wire_name : String) (bus : Nat) : String :=
  "PADIN  p" ++ pad3 pin_num ++ "(.DI(" ++ wire_name ++ "_i" ++ busSuffix bus ++
    "), .PAD(" ++ wire_name ++ busSuffix bus ++ "));"

/-- `gen_output_pad(pin_num, wire_name, bus=0)`. -/
def gen_output_pad (pin_num : Nat) (wire_name : String) (bus : Nat) : String :=
  "PADOUT p" ++ pad3 pin_num ++ "(.DO(" ++ wire_name ++ "_o" ++ busSuffix bus ++
    "), .PAD(" ++ wire_name ++ busSuffix bus ++ "));"

/-- `pad_generator = gen_output_pad if is_output else gen_input_pad`, applied. -/
def padLineFor (isOut : Bool) (pin : Nat) (name : String) (bus : Nat) : String :=
  if isOut then gen_output_pad pin name bus else gen_input_pad pin name bus

/-- The inner bus-expansion loop of `gen_pads` (source lines 68-69): each
append uses the current `len(pad_lines)` as pin number. -/
def appendBusPads (isOut : Bool) (name : String) : List String → List Nat → List String
  | acc, [] => acc
  | acc, i :: rest => appendBusPads isOut name (acc ++ [padLineFor isOut acc.length name i]) rest

/-- The line loop of `gen_pads` (source lines 62-69), threading the process
state through `parse_line`.  `range(wire_count)` is `List.range
wire_count.toNat` (empty for non-positive counts, as in Python). -/
def gen_pads_aux (oracle : String → Int) (ps : PState) (acc : List String) :
    List String → Except PyError (List String × PState)
  | [] => .ok (acc, ps)
  | line :: rest =>
    match parse_line oracle ps line with
    | .error e => .error e
    | .ok (d, ps₁) =>
      if d.wire_count = 1 then
        gen_pads_aux oracle ps₁ (acc ++ [padLineFor d.is_output acc.length d.name 0]) rest
      else
        gen_pads_aux oracle ps₁
          (appendBusPads d.is_output d.name acc (List.range d.wire_count.toNat)) rest

/-- `gen_pads(io_lines)` run from process start (`known_substitutions`
empty, no oracle invocations yet), also returning the final process state. -/
def gen_pads_full (oracle : String → Int) (lines : List String) :
    Except PyError (List String × PState) :=
  gen_pads_aux oracle ⟨[], []⟩ [] lines

/-- `gen_pads(io_lines)`: just the generated pad lines. -/
def gen_pads (oracle : String → Int) (lines : List String) : Except PyError (List String) :=
  (gen_pads_full oracle lines).map Prod.fst

/-- Modelled from the spec: the three-way direction classification of §3/§4.1
(`inout` default when neither `input` nor `output` substring occurs in any
token).  The code itself has no such classification; this definition exists
only to state what the spec calls an `inout` line. -/
def specDirection (line : String) : String :=
  let toks := pySplitWs (pyStrip line)
  if toks.any fun t => strContains t.data "output".data then "output"
  else if toks.any fun t => strContains t.data "input".data then "input"
  else "inout"

/-- C1: evaluation of the code at the spec's own 4-bit `SPICS` example.  The
pad line for bit 0 is `PADOUT p000(.DO(SPICS_o), .PAD(SPICS));` — it carries
no `[0]` suffix (the internal reference `SPICS_o[0]` required by the claim
does not occur in it), while bits 1..3 do carry their indices.  The `if bus`
truthiness test in `gen_output_pad` conflates bus index 0 with the scalar
default. -/
theorem C1_spics_bit0_unsuffixed :
    gen_pads (fun _ => 0) ["output logic [3:0] SPICS;"] =
      .ok ["PADOUT p000(.DO(SPICS_o), .PAD(SPICS));",
           "PADOUT p001(.DO(SPICS_o[1]), .PAD(SPICS[1]));",
           "PADOUT p002(.DO(SPICS_o[2]), .PAD(SPICS[2]));",
           "PADOUT p003(.DO(SPICS_o[3]), .PAD(SPICS[3]));"] ∧
    strContains "PADOUT p000(.DO(SPICS_o), .PAD(SPICS));".data "SPICS_o[0]".data = false := by
  exact ⟨rfl, rfl⟩

/-- C2 counterexample: on the line `[0:3]` (a bracketed range with `N = 0 <
M = 3`, both halves integers) `parse_line` does not fail at all: it returns
the descriptor with `wire_count = 0 + 1 - 3 = -2`, and `gen_pads` then
silently emits nothing for it.  No `MalformedRangeError` exists in the
code. -/
theorem C2_negative_range_returned :
    parse_line (fun _ => 0) ⟨[], []⟩ "[0:3]" = .ok (⟨false, -2, "none"⟩, ⟨[], []⟩) ∧
    gen_pads (fun _ => 0) ["[0:3]"] = .ok [] := by
  exact ⟨rfl, rfl⟩

/-- C3 counterexample: a line with no direction keyword (`foo;`) parses to
exactly the same result as a line explicitly marked `input` — the boolean
`is_output = false`, wire count 1, name `foo`.  There is no third `inout`
value distinct from `input`: the classification is a two-valued boolean. -/
theorem C3_no_keyword_equals_input :
    parse_line (fun _ => 0) ⟨[], []⟩ "foo;" = .ok (⟨false, 1, "foo"⟩, ⟨[], []⟩) ∧
    parse_line (fun _ => 0) ⟨[], []⟩ "input foo;" = .ok (⟨false, 1, "foo"⟩, ⟨[], []⟩) := by
  exact ⟨rfl, rfl⟩

/-- C7 counterexample: the line `foo;` is exactly what the spec classifies as
`inout` (no direction keyword), yet the emitter produces a plain input pad
exposing only `DI` and `PAD` — the emitted line contains neither an `IEN` nor
an `OEN` binding, and no input-enable question is ever asked (the oracle
trace stays empty). -/
theorem C7_no_inout_pad_shape :
    specDirection "foo;" = "inout" ∧
    gen_pads_full (fun _ => 0) ["foo;"] =
      .ok (["PADIN  p000(.DI(foo_i), .PAD(foo));"], ⟨[], []⟩) ∧
    strContains "PADIN  p000(.DI(foo_i), .PAD(foo));".data "IEN".data = false ∧
    strContains "PADIN  p000(.DI(foo_i), .PAD(foo));".data "OEN".data = false := by
  exact ⟨rfl, rfl, rfl, rfl⟩

/-- C8: on the single-bit input descriptor line for `clk`, `gen_pads` emits
exactly one line, with zero-padded pin index `000`, internal signal `clk_i`,
and no bus-index suffix (no `[` occurs in the line), whatever the oracle
(it is never consulted). -/
theorem C8_single_bit_clk (oracle : String → Int) :
    gen_pads oracle ["input logic clk;"] = .ok ["PADIN  p000(.DI(clk_i), .PAD(clk));"] ∧
    pad3 0 = "000" ∧
    strContains "PADIN  p000(.DI(clk_i), .PAD(clk));".data "clk_i".data = true ∧
    strContains "PADIN  p000(.DI(clk_i), .PAD(clk));".data "[".data = false := by
  exact ⟨rfl, rfl, rfl, rfl⟩

/-- C9 counterexample: the non-empty line `;` has a single token contributing
no alphanumeric or underscore characters, yet `parse_line` returns the empty
string as the name, not the sentinel `"none"`: the name branch overwrites the
sentinel with the filtered (empty) token. -/
theorem C9_semicolon_empty_name :
    parse_line (fun _ => 0) ⟨[], []⟩ ";" = .ok (⟨false, 1, ""⟩, ⟨[], []⟩) ∧
    ("" : String) ≠ "none" := by
  exact ⟨rfl, by decide⟩

lemma processToken_no_bracket (oracle : String → Int) (st : PortDesc) (ps : PState)
    (t : String) (hbr : strContains t.data "[".data = false) :
    ∃ st₁, processToken oracle st ps t = .ok (st₁, ps) ∧ st₁.wire_count = st.wire_count := by
  unfold processToken
  rw [hbr]
  simp only [Bool.false_eq_true, if_false]
  split_ifs with h₁ h₂
  · exact ⟨st, rfl, rfl⟩
  · exact ⟨_, rfl, rfl⟩
  · exact ⟨_, rfl, rfl⟩

lemma processToken_is_output_preserved (oracle : String → Int) (st : PortDesc) (ps : PState)
    (t : String) (st₁ : PortDesc) (ps₁ : PState)
    (hout : strContains t.data "output".data = false)
    (h : processToken oracle st ps t = .ok (st₁, ps₁)) : st₁.is_output = st.is_output := by
  unfold processToken at h
  rw [hout] at h
  simp only [Bool.false_eq_true, if_false] at h
  split_ifs at h with h₁ h₂
  · cases h; rfl
  · split at h
    · split at h
      · cases h; rfl
      · split at h
        · cases h; rfl
        · cases h; rfl
    · exact Except.noConfusion h
  · cases h; rfl

lemma processToken_name_preserved (oracle : String → Int) (st : PortDesc) (ps : PState)
    (t : String) (st₁ : PortDesc) (ps₁ : PState)
    (hc : isTypeKeyword (pyStrip t) = true ∨ strContains t.data "output".data = true ∨
          strContains t.data "[".data = true)
    (h : processToken oracle st ps t = .ok (st₁, ps₁)) : st₁.name = st.name := by
  unfold processToken at h
  split_ifs at h with h₁ h₂ h₃
  · cases h; rfl
  · cases h; rfl
  · split at h
    · split at h
      · cases h; rfl
      · split at h
        · cases h; rfl
        · cases h; rfl
    · cases h
  · rcases hc with hc | hc | hc
    · exact absurd hc h₁
    · exact absurd hc h₂
    · exact absurd hc h₃

lemma parseTokens_append (oracle : String → Int) (st : PortDesc) (ps : PState)
    (l₁ l₂ : List String) :
    parseTokens oracle st ps (l₁ ++ l₂) =
      match parseTokens oracle st ps l₁ with
      | .error e => .error e
      | .ok (st₁, ps₁) => parseTokens oracle st₁ ps₁ l₂ := by
  induction l₁ generalizing st ps with
  | nil => simp [parseTokens]
  | cons t rest ih =>
    simp only [List.cons_append, parseTokens]
    cases processToken oracle st ps t with
    | error e => rfl
    | ok p => exact ih p.1 p.2

lemma parseTokens_no_bracket (oracle : String → Int) (st : PortDesc) (ps : PState)
    (toks : List String) (h : ∀ t ∈ toks, strContains t.data "[".data = false) :
    ∃ st₁, parseTokens oracle st ps toks = .ok (st₁, ps) ∧ st₁.wire_count = st.wire_count := by
  induction toks generalizing st with
  | nil => exact ⟨st, rfl, rfl⟩
  | cons t rest ih =>
    obtain ⟨st₁, hok, hwc⟩ := processToken_no_bracket oracle st ps t (h t (by simp))
    obtain ⟨st₂, hok₂, hwc₂⟩ := ih st₁ fun u hu => h u (by simp [hu])
    exact ⟨st₂, by simp only [parseTokens, hok]; exact hok₂, by rw [hwc₂, hwc]⟩

lemma processToken_range (oracle : String → Int) (st : PortDesc) (ps : PState)
    (tok sN sM : String) (N M : Int)
    (hbr : strContains tok.data "[".data = true)
    (hkw : isTypeKeyword (pyStrip tok) = false)
    (hout : strContains tok.data "output".data = false)
    (hsplit : pySplitColon (pySlice1m1 (pyStrip tok)) = [sN, sM])
    (hN : pyInt sN = some N) (hM : pyInt sM = some M) :
    processToken oracle st ps tok = .ok ({ st with wire_count := N + 1 - M }, ps) := by
  unfold processToken
  rw [hkw, hout, hbr, hsplit]
  simp [hN, hM]

lemma processToken_badRange (oracle : String → Int) (st : PortDesc) (ps : PState)
    (tok : String)
    (hbr : strContains tok.data "[".data = true)
    (hkw : isTypeKeyword (pyStrip tok) = false)
    (hout : strContains tok.data "output".data = false)
    (hsplit : (pySplitColon (pySlice1m1 (pyStrip tok))).length ≠ 2) :
    processToken oracle st ps tok = .error .unpackError := by
  unfold processToken
  rw [hkw, hout, hbr]
  rcases hsp : pySplitColon (pySlice1m1 (pyStrip tok)) with _ | ⟨a, _ | ⟨b, _ | ⟨c, r⟩⟩⟩
  · simp
  · simp
  · rw [hsp] at hsplit; simp at hsplit
  · simp

lemma parse_line_range_core (oracle : String → Int) (ps : PState) (line : String)
    (pre post : List String) (tok sN sM : String) (N M : Int)
    (htoks : pySplitWs (pyStrip line) = pre ++ tok :: post)
    (hpre : ∀ t ∈ pre, strContains t.data "[".data = false)
    (hpost : ∀ t ∈ post, strContains t.data "[".data = false)
    (hbr : strContains tok.data "[".data = true)
    (hkw : isTypeKeyword (pyStrip tok) = false)
    (hout : strContains tok.data "output".data = false)
    (hsplit : pySplitColon (pySlice1m1 (pyStrip tok)) = [sN, sM])
    (hN : pyInt sN = some N) (hM : pyInt sM = some M) :
    ∃ d, parse_line oracle ps line = .ok (d, ps) ∧ d.wire_count = N + 1 - M := by
  unfold parse_line
  rw [htoks, parseTokens_append]
  obtain ⟨st₁, h₁, _⟩ := parseTokens_no_bracket oracle initDesc ps pre hpre
  simp only [h₁, parseTokens,
    processToken_range oracle st₁ ps tok sN sM N M hbr hkw hout hsplit hN hM]
  obtain ⟨st₂, h₂, hw₂⟩ := parseTokens_no_bracket oracle { st₁ with wire_count := N + 1 - M }
    ps post hpost
  exact ⟨st₂, h₂, hw₂⟩

/-- C4: for a line containing a bracketed range token `[N:M]` (no other token
containing `[`) whose two halves parse as integers with `N >= M`, `parse_line`
returns `wire_count = N - M + 1` (computed by the source as `int(n) + 1 -
int(m)`). -/
theorem C4_range_wire_count (oracle : String → Int) (ps : PState) (line : String)
    (pre post : List String) (tok sN sM : String) (N M : Int)
    (htoks : pySplitWs (pyStrip line) = pre ++ tok :: post)
    (hpre : ∀ t ∈ pre, strContains t.data "[".data = false)
    (hpost : ∀ t ∈ post, strContains t.data "[".data = false)
    (hbr : strContains tok.data "[".data = true)
    (hkw : isTypeKeyword (pyStrip tok) = false)
    (hout : strContains tok.data "output".data = false)
    (hsplit : pySplitColon (pySlice1m1 (pyStrip tok)) = [sN, sM])
    (hN : pyInt sN = some N) (hM : pyInt sM = some M) (_hge : M ≤ N) :
    ∃ d, parse_line oracle ps line = .ok (d, ps) ∧ d.wire_count = N - M + 1 := by
  obtain ⟨d, hd, hw⟩ := parse_line_range_core oracle ps line pre post tok sN sM N M
    htoks hpre hpost hbr hkw hout hsplit hN hM
  exact ⟨d, hd, by rw [hw]; ring⟩

/-- C4 witness: concrete instantiation on the line `[7:0]`, yielding
`wire_count = 8`. -/
theorem C4_range_wire_count_witness :
    ∃ d, parse_line (fun _ => 0) ⟨[], []⟩ "[7:0]" = .ok (d, ⟨[], []⟩) ∧
      d.wire_count = 7 - 0 + 1 :=
  C4_range_wire_count (fun _ => 0) ⟨[], []⟩ "[7:0]" [] [] "[7:0]" "7" "0" 7 0
    (by rfl) (by simp) (by simp) (by rfl) (by rfl) (by rfl) (by rfl) (by rfl) (by rfl)
    (by decide)

/-- C2 (amended): for a line containing a bracketed range token `[N:M]` with
both halves integers and `N < M`, `parse_line` does not fail: it returns
normally with `wire_count = N - M + 1 <= 0`, and this non-positive count is
propagated (there is no `MalformedRangeError` in the code; `gen_pads` then
emits no lines for the descriptor). -/
theorem C2_amended_negative_range_silent (oracle : String → Int) (ps : PState) (line : String)
    (pre post : List String) (tok sN sM : String) (N M : Int)
    (htoks : pySplitWs (pyStrip line) = pre ++ tok :: post)
    (hpre : ∀ t ∈ pre, strContains t.data "[".data = false)
    (hpost : ∀ t ∈ post, strContains t.data "[".data = false)
    (hbr : strContains tok.data "[".data = true)
    (hkw : isTypeKeyword (pyStrip tok) = false)
    (hout : strContains tok.data "output".data = false)
    (hsplit : pySplitColon (pySlice1m1 (pyStrip tok)) = [sN, sM])
    (hN : pyInt sN = some N) (hM : pyInt sM = some M) (hlt : N < M) :
    ∃ d, parse_line oracle ps line = .ok (d, ps) ∧ d.wire_count = N - M + 1 ∧
      d.wire_count ≤ 0 := by
  obtain ⟨d, hd, hw⟩ := parse_line_range_core oracle ps line pre post tok sN sM N M
    htoks hpre hpost hbr hkw hout hsplit hN hM
  exact ⟨d, hd, by rw [hw]; ring, by rw [hw]; omega⟩

/-- C2 witness: concrete instantiation on the line `[0:3]`, returning
`wire_count = -2` without any error. -/
theorem C2_amended_negative_range_silent_witness :
    ∃ d, parse_line (fun _ => 0) ⟨[], []⟩ "[0:3]" = .ok (d, ⟨[], []⟩) ∧
      d.wire_count = 0 - 3 + 1 ∧ d.wire_count ≤ 0 :=
  C2_amended_negative_range_silent (fun _ => 0) ⟨[], []⟩ "[0:3]" [] [] "[0:3]" "0" "3" 0 3
    (by rfl) (by simp) (by simp) (by rfl) (by rfl) (by rfl) (by rfl) (by rfl) (by rfl)
    (by decide)

/-- C10: for a line whose tokens contain a bracket token whose interior
(after dropping the first and last characters) does not split on `:` into
exactly two parts, `parse_line` raises the uncaught tuple-unpacking
`ValueError` — for every oracle and every cache state, so neither the
ambiguity cache nor the resolution collaborator is consulted for that
token. -/
theorem C10_bad_bracket_unpack_error (oracle : String → Int) (ps : PState) (line : String)
    (pre post : List String) (tok : String)
    (htoks : pySplitWs (pyStrip line) = pre ++ tok :: post)
    (hpre : ∀ t ∈ pre, strContains t.data "[".data = false)
    (hbr : strContains tok.data "[".data = true)
    (hkw : isTypeKeyword (pyStrip tok) = false)
    (hout : strContains tok.data "output".data = false)
    (hsplit : (pySplitColon (pySlice1m1 (pyStrip tok))).length ≠ 2) :
    parse_line oracle ps line = .error .unpackError := by
  unfold parse_line
  rw [htoks, parseTokens_append]
  obtain ⟨st₁, h₁, _⟩ := parseTokens_no_bracket oracle initDesc ps pre hpre
  simp only [h₁, parseTokens, processToken_badRange oracle st₁ ps tok hbr hkw hout hsplit]

/-- C10 witness: concrete instantiation on the line `[WIDTH]` (a
single-index bracket, splitting into one part, not two). -/
theorem C10_bad_bracket_unpack_error_witness :
    parse_line (fun _ => 0) ⟨[], []⟩ "[WIDTH]" = .error .unpackError :=
  C10_bad_bracket_unpack_error (fun _ => 0) ⟨[], []⟩ "[WIDTH]" [] [] "[WIDTH]"
    (by rfl) (by simp) (by rfl) (by rfl) (by rfl) (by decide)

lemma parseTokens_is_output (oracle : String → Int) (st : PortDesc) (ps : PState)
    (toks : List String) (st₁ : PortDesc) (ps₁ : PState)
    (hout : ∀ t ∈ toks, strContains t.data "output".data = false)
    (h : parseTokens oracle st ps toks = .ok (st₁, ps₁)) : st₁.is_output = st.is_output := by
  induction toks generalizing st ps with
  | nil => cases h; rfl
  | cons t rest ih =>
    simp only [parseTokens] at h
    cases hp : processToken oracle st ps t with
    | error e => rw [hp] at h; exact Except.noConfusion h
    | ok p =>
      obtain ⟨stA, psA⟩ := p
      rw [hp] at h
      have hstep := processToken_is_output_preserved oracle st ps t stA psA
        (hout t (by simp)) hp
      have hrest := ih stA psA (fun u hu => hout u (by simp [hu])) h
      rw [hrest, hstep]

lemma parseTokens_name (oracle : String → Int) (st : PortDesc) (ps : PState)
    (toks : List String) (st₁ : PortDesc) (ps₁ : PState)
    (hc : ∀ t ∈ toks, isTypeKeyword (pyStrip t) = true ∨
      strContains t.data "output".data = true ∨ strContains t.data "[".data = true)
    (h : parseTokens oracle st ps toks = .ok (st₁, ps₁)) : st₁.name = st.name := by
  induction toks generalizing st ps with
  | nil => cases h; rfl
  | cons t rest ih =>
    simp only [parseTokens] at h
    cases hp : processToken oracle st ps t with
    | error e => rw [hp] at h; exact Except.noConfusion h
    | ok p =>
      obtain ⟨stA, psA⟩ := p
      rw [hp] at h
      have hstep := processToken_name_preserved oracle st ps t stA psA (hc t (by simp)) hp
      have hrest := ih stA psA (fun u hu => hc u (by simp [hu])) h
      rw [hrest, hstep]

/-- C3 (amended): `parse_line` classifies direction as the boolean
`is_output`, not a three-way value: for every line in which no token contains
the substring `output` (whether or not a token contains `input`), the result
has `is_output = false`, i.e. such a line is classified exactly like an
explicit input line. -/
theorem C3_amended_no_output_is_input (oracle : String → Int) (ps : PState) (line : String)
    (d : PortDesc) (ps₁ : PState)
    (hout : ∀ t ∈ pySplitWs (pyStrip line), strContains t.data "output".data = false)
    (h : parse_line oracle ps line = .ok (d, ps₁)) : d.is_output = false :=
  parseTokens_is_output oracle initDesc ps (pySplitWs (pyStrip line)) d ps₁ hout h

/-- C3 witness: concrete instantiation on the keyword-free line `foo;`. -/
theorem C3_amended_no_output_is_input_witness :
    (⟨false, 1, "foo"⟩ : PortDesc).is_output = false :=
  C3_amended_no_output_is_input (fun _ => 0) ⟨[], []⟩ "foo;" ⟨false, 1, "foo"⟩ ⟨[], []⟩
    (by decide) (by rfl)

/-- C9 (amended): the name stays at the sentinel `"none"` exactly on lines
where no token ever reaches the name-assignment branch — i.e. every token is
a type keyword, contains `output`, or contains `[`.  (A token reaching the
name branch with no alphanumeric or underscore characters instead overwrites
the sentinel with the empty string, as the C9 counterexample shows.) -/
theorem C9_amended_name_sentinel (oracle : String → Int) (ps : PState) (line : String)
    (d : PortDesc) (ps₁ : PState)
    (hc : ∀ t ∈ pySplitWs (pyStrip line), isTypeKeyword (pyStrip t) = true ∨
      strContains t.data "output".data = true ∨ strContains t.data "[".data = true)
    (h : parse_line oracle ps line = .ok (d, ps₁)) : d.name = "none" :=
  parseTokens_name oracle initDesc ps (pySplitWs (pyStrip line)) d ps₁ hc h

/-- C9 witness: concrete instantiation on the line `wire output [3:0]`,
whose tokens all skip the name branch. -/
theorem C9_amended_name_sentinel_witness :
    (⟨true, 4, "none"⟩ : PortDesc).name = "none" :=
  C9_amended_name_sentinel (fun _ => 0) ⟨[], []⟩ "wire output [3:0]"
    ⟨true, 4, "none"⟩ ⟨[], []⟩ (by decide) (by rfl)

lemma get?_append_left (l₁ l₂ : List String) (i : Nat) (h : i < l₁.length) :
    (l₁ ++ l₂).get? i = l₁.get? i := by
  induction l₁ generalizing i with
  | nil => simp at h
  | cons a t ih =>
    cases i with
    | zero => rfl
    | succ j => exact ih j (Nat.lt_of_succ_lt_succ h)

lemma get?_concat_length (l : List String) (x : String) :
    (l ++ [x]).get? l.length = some x := by
  induction l with
  | nil => rfl
  | cons a t ih => exact ih

/-- Invariant for C5: every already-emitted line at position `i` was produced
with pin number `i`. -/
def pinIndexed (acc : List String) : Prop :=
  ∀ i, i < acc.length → ∃ o nm b, acc.get? i = some (padLineFor o i nm b)

lemma pinIndexed_step (acc : List String) (o : Bool) (nm : String) (b : Nat)
    (h : pinIndexed acc) : pinIndexed (acc ++ [padLineFor o acc.length nm b]) := by
  intro i hi
  have hi₁ : i < acc.length + 1 := by simpa using hi
  rcases Nat.lt_or_ge i acc.length with hlt | hge
  · obtain ⟨o₁, nm₁, b₁, hg⟩ := h i hlt
    exact ⟨o₁, nm₁, b₁, by rw [get?_append_left acc _ i hlt]; exact hg⟩
  · have : i = acc.length := Nat.le_antisymm (Nat.lt_succ_iff.mp hi₁) hge
    subst this
    exact ⟨o, nm, b, get?_concat_length acc _⟩

/-- Invariant for C7 (amended): every already-emitted line has one of the two
pad shapes produced by `gen_input_pad` or `gen_output_pad`. -/
def twoShapes (acc : List String) : Prop :=
  ∀ s ∈ acc, ∃ pin nm b, s = gen_input_pad pin nm b ∨ s = gen_output_pad pin nm b

lemma twoShapes_step (acc : List String) (o : Bool) (nm : String) (b : Nat)
    (h : twoShapes acc) : twoShapes (acc ++ [padLineFor o acc.length nm b]) := by
  intro s hs
  rcases List.mem_append.1 hs with hs | hs
  · exact h s hs
  · rw [List.mem_singleton] at hs
    subst hs
    cases o with
    | false => exact ⟨acc.length, nm, b, Or.inl rfl⟩
    | true => exact ⟨acc.length, nm, b, Or.inr rfl⟩

lemma appendBusPads_invariant (Inv : List String → Prop)
    (hstep : ∀ acc o nm b, Inv acc → Inv (acc ++ [padLineFor o acc.length nm b]))
    (o : Bool) (nm : String) (is : List Nat) (acc : List String)
    (hacc : Inv acc) : Inv (appendBusPads o nm acc is) := by
  induction is generalizing acc with
  | nil => exact hacc
  | cons i rest ih =>
    simp only [appendBusPads]
    exact ih _ (hstep acc o nm i hacc)

lemma gen_pads_aux_invariant (Inv : List String → Prop)
    (hstep : ∀ acc o nm b, Inv acc → Inv (acc ++ [padLineFor o acc.length nm b]))
    (oracle : String → Int) (ps : PState) (acc : List String) (lines : List String)
    (res : List String) (ps₁ : PState)
    (hacc : Inv acc) (h : gen_pads_aux oracle ps acc lines = .ok (res, ps₁)) : Inv res := by
  induction lines generalizing ps acc with
  | nil => cases h; exact hacc
  | cons line rest ih =>
    simp only [gen_pads_aux] at h
    cases hp : parse_line oracle ps line with
    | error e => rw [hp] at h; exact Except.noConfusion h
    | ok p =>
      obtain ⟨d, psA⟩ := p
      simp only [hp] at h
      by_cases hw : d.wire_count = 1
      · rw [if_pos hw] at h
        exact ih psA _ (hstep acc d.is_output d.name 0 hacc) h
      · rw [if_neg hw] at h
        exact ih psA _
          (appendBusPads_invariant Inv hstep d.is_output d.name _ acc hacc) h

/-- C5: the pin indices of the emitted pad lines are exactly their positions
in the output: for every successful run, the `i`-th emitted line is the pad
formatter applied at pin number `i`, so the counter starts at 0 and
increments by exactly one per emitted line, across bus expansions and
descriptor boundaries. -/
theorem C5_pins_are_positions (oracle : String → Int) (lines res : List String)
    (h : gen_pads oracle lines = .ok res) (i : Nat) (hi : i < res.length) :
    ∃ isOut name bus, res.get? i = some (padLineFor isOut i name bus) := by
  unfold gen_pads gen_pads_full at h
  cases hg : gen_pads_aux oracle ⟨[], []⟩ [] lines with
  | error e => rw [hg] at h; exact Except.noConfusion h
  | ok p =>
    obtain ⟨acc, psF⟩ := p
    rw [hg] at h
    simp only [Except.map] at h
    cases h
    exact gen_pads_aux_invariant pinIndexed pinIndexed_step oracle ⟨[], []⟩ [] lines
      _ psF (fun j hj => by simp at hj) hg i hi

/-- C5 witness: a mixed batch (a scalar input then a 2-bit output bus) whose
line at position 2 is the output formatter applied at pin 2. -/
theorem C5_pins_are_positions_witness :
    ∃ isOut name bus,
      (["PADIN  p000(.DI(clk_i), .PAD(clk));",
        "PADOUT p001(.DO(d_o), .PAD(d));",
        "PADOUT p002(.DO(d_o[1]), .PAD(d[1]));"] : List String).get? 2 =
        some (padLineFor isOut 2 name bus) :=
  C5_pins_are_positions (fun _ => 0) ["clk;", "output [1:0] d;"]
    ["PADIN  p000(.DI(clk_i), .PAD(clk));",
     "PADOUT p001(.DO(d_o), .PAD(d));",
     "PADOUT p002(.DO(d_o[1]), .PAD(d[1]));"] (by rfl) 2 (by decide)

/-- C7 (amended): the emitter has no inout pad shape at all — every line of
every successful run is produced either by `gen_input_pad` (fields `DI`,
`PAD`) or by `gen_output_pad` (fields `DO`, `PAD`); there is no formatter
binding `OEN`/`IEN` and no input-enable query, and lines without a direction
keyword use the input formatter. -/
theorem C7_amended_two_shapes_only (oracle : String → Int) (lines res : List String)
    (h : gen_pads oracle lines = .ok res) :
    ∀ s ∈ res, ∃ pin nm b, s = gen_input_pad pin nm b ∨ s = gen_output_pad pin nm b := by
  unfold gen_pads gen_pads_full at h
  cases hg : gen_pads_aux oracle ⟨[], []⟩ [] lines with
  | error e => rw [hg] at h; exact Except.noConfusion h
  | ok p =>
    obtain ⟨acc, psF⟩ := p
    rw [hg] at h
    simp only [Except.map] at h
    cases h
    exact gen_pads_aux_invariant twoShapes twoShapes_step oracle ⟨[], []⟩ [] lines
      _ psF (fun s hs => by simp at hs) hg

/-- C7 witness: on the keyword-free line `foo;` (the spec's `inout` case) the
single emitted line has one of the two shapes. -/
theorem C7_amended_two_shapes_only_witness :
    ∃ pin nm b, ("PADIN  p000(.DI(foo_i), .PAD(foo));" : String) = gen_input_pad pin nm b ∨
      ("PADIN  p000(.DI(foo_i), .PAD(foo));" : String) = gen_output_pad pin nm b :=
  C7_amended_two_shapes_only (fun _ => 0) ["foo;"]
    ["PADIN  p000(.DI(foo_i), .PAD(foo));"] (by rfl)
    "PADIN  p000(.DI(foo_i), .PAD(foo));" (by simp)

lemma lookupCache_append_some (c₁ c₂ : List (String × Int)) (k : String) (v : Int)
    (h : lookupCache c₁ k = some v) : lookupCache (c₁ ++ c₂) k = some v := by
  induction c₁ with
  | nil => simp [lookupCache] at h
  | cons e rest ih =>
    obtain ⟨k₁, v₁⟩ := e
    simp only [lookupCache, List.cons_append] at h ⊢
    split_ifs at h ⊢ with hk
    · exact h
    · exact ih h

lemma lookupCache_append_none (c₁ c₂ : List (String × Int)) (k : String)
    (h : lookupCache c₁ k = none) : lookupCache (c₁ ++ c₂) k = lookupCache c₂ k := by
  induction c₁ with
  | nil => rfl
  | cons e rest ih =>
    obtain ⟨k₁, v₁⟩ := e
    simp only [lookupCache, List.cons_append] at h ⊢
    split_ifs at h ⊢ with hk
    exact ih h

/-- Invariant for C6: the tokens the oracle has been invoked for are pairwise
distinct, and each of them has its (first, successful) resolution stored in
the cache. -/
def CacheInv (oracle : String → Int) (ps : PState) : Prop :=
  ps.asked.Nodup ∧ ∀ t ∈ ps.asked, lookupCache ps.cache t = some (oracle t)

lemma cacheInv_insert (oracle : String → Int) (ps : PState) (t : String)
    (hinv : CacheInv oracle ps) (hlk : lookupCache ps.cache t = none) :
    CacheInv oracle ⟨ps.cache ++ [(t, oracle t)], ps.asked ++ [t]⟩ := by
  have hmem : t ∉ ps.asked := by
    intro hmem
    have hsome := hinv.2 t hmem
    rw [hlk] at hsome
    exact Option.noConfusion hsome
  refine ⟨?_, ?_⟩
  · simp [List.nodup_append, hinv.1, hmem]
  · intro u hu
    rcases List.mem_append.1 hu with hu | hu
    · exact lookupCache_append_some _ _ _ _ (hinv.2 u hu)
    · rw [List.mem_singleton] at hu
      subst hu
      rw [lookupCache_append_none _ _ _ hlk]
      simp [lookupCache]

lemma cacheInv_fallback_step (oracle : String → Int) (st : PortDesc) (ps : PState)
    (t : String) (st₁ : PortDesc) (ps₁ : PState) (hinv : CacheInv oracle ps)
    (h : (match lookupCache ps.cache t with
          | some w =>
            (Except.ok ({ st with wire_count := w }, ps) : Except PyError (PortDesc × PState))
          | none =>
            Except.ok ({ st with wire_count := oracle t },
              { cache := ps.cache ++ [(t, oracle t)], asked := ps.asked ++ [t] })) =
        .ok (st₁, ps₁)) :
    CacheInv oracle ps₁ := by
  cases hlk : lookupCache ps.cache t with
  | none =>
    simp only [hlk] at h
    cases h
    exact cacheInv_insert oracle ps t hinv hlk
  | some w =>
    simp only [hlk] at h
    cases h
    exact hinv

lemma processToken_cacheInv (oracle : String → Int) (st : PortDesc) (ps : PState)
    (t : String) (st₁ : PortDesc) (ps₁ : PState)
    (hinv : CacheInv oracle ps) (h : processToken oracle st ps t = .ok (st₁, ps₁)) :
    CacheInv oracle ps₁ := by
  unfold processToken at h
  split_ifs at h with h₁ h₂ h₃
  · cases h; exact hinv
  · cases h; exact hinv
  · split at h
    · rename_i n m heq
      cases hn : pyInt n <;> cases hm : pyInt m <;> simp only [hn, hm] at h
      · exact cacheInv_fallback_step oracle st ps t st₁ ps₁ hinv h
      · exact cacheInv_fallback_step oracle st ps t st₁ ps₁ hinv h
      · exact cacheInv_fallback_step oracle st ps t st₁ ps₁ hinv h
      · cases h; exact hinv
    · exact Except.noConfusion h
  · cases h; exact hinv

lemma parseTokens_cacheInv (oracle : String → Int) (st : PortDesc) (ps : PState)
    (toks : List String) (st₁ : PortDesc) (ps₁ : PState)
    (hinv : CacheInv oracle ps) (h : parseTokens oracle st ps toks = .ok (st₁, ps₁)) :
    CacheInv oracle ps₁ := by
  induction toks generalizing st ps with
  | nil => cases h; exact hinv
  | cons t rest ih =>
    simp only [parseTokens] at h
    cases hp : processToken oracle st ps t with
    | error e => rw [hp] at h; exact Except.noConfusion h
    | ok p =>
      obtain ⟨stA, psA⟩ := p
      rw [hp] at h
      exact ih stA psA (processToken_cacheInv oracle st ps t stA psA hinv hp) h

lemma gen_pads_aux_cacheInv (oracle : String → Int) (ps : PState) (acc : List String)
    (lines : List String) (res : List String) (ps₁ : PState)
    (hinv : CacheInv oracle ps) (h : gen_pads_aux oracle ps acc lines = .ok (res, ps₁)) :
    CacheInv oracle ps₁ := by
  induction lines generalizing ps acc with
  | nil => cases h; exact hinv
  | cons line rest ih =>
    simp only [gen_pads_aux] at h
    cases hp : parse_line oracle ps line with
    | error e => rw [hp] at h; exact Except.noConfusion h
    | ok p =>
      obtain ⟨d, psA⟩ := p
      simp only [hp] at h
      have hinvA : CacheInv oracle psA :=
        parseTokens_cacheInv oracle initDesc ps (pySplitWs (pyStrip line)) d psA hinv hp
      by_cases hw : d.wire_count = 1
      · rw [if_pos hw] at h
        exact ih psA _ hinvA h
      · rw [if_neg hw] at h
        exact ih psA _ hinvA h

/-- C6: across one run starting from the empty cache, the resolution oracle
is invoked at most once per distinct literal range-token text — the final
trace of invoked tokens has no duplicates — and every invoked token has its
first resolution stored in the cache (so later occurrences of the identical
token text are cache hits and do not invoke the oracle again). -/
theorem C6_oracle_invoked_at_most_once (oracle : String → Int) (lines res : List String)
    (psF : PState) (h : gen_pads_full oracle lines = .ok (res, psF)) :
    psF.asked.Nodup ∧ ∀ t ∈ psF.asked, lookupCache psF.cache t = some (oracle t) :=
  gen_pads_aux_cacheInv oracle ⟨[], []⟩ [] lines res psF
    ⟨List.nodup_nil, fun t ht => absurd ht (List.not_mem_nil t)⟩ h

/-- C6 witness: a run with the same unresolvable token `[A:0]` on two lines;
the oracle trace is the single token, stored in the cache with the oracle's
answer 2. -/
theorem C6_oracle_invoked_at_most_once_witness :
    (["[A:0]"] : List String).Nodup ∧
      ∀ t ∈ (["[A:0]"] : List String),
        lookupCache [("[A:0]", 2)] t = some ((fun _ => (2 : Int)) t) :=
  C6_oracle_invoked_at_most_once (fun _ => 2) ["input [A:0] x;", "output [A:0] y;"]
    ["PADIN  p000(.DI(x_i), .PAD(x));",
     "PADIN  p001(.DI(x_i[1]), .PAD(x[1]));",
     "PADOUT p002(.DO(y_o), .PAD(y));",
     "PADOUT p003(.DO(y_o[1]), .PAD(y[1]));"]
    ⟨[("[A:0]", 2)], ["[A:0]"]⟩ (by rfl)

example : pySplitWs "  input  logic [31:0] bus; " = ["input", "logic", "[31:0]", "bus;"] := by rfl

example : pyInt "31" = some 31 := by rfl

example : pyInt "P.XLEN" = none := by rfl

example : parse_line (fun _ => 0) ⟨[], []⟩ "input logic [31:0] bus;" =
    .ok (⟨false, 32, "bus"⟩, ⟨[], []⟩) := by rfl

end GenPads
